import Mathlib

set_option maxHeartbeats 1000000

/-!
Shallow embedding of `src/model/train_profile_model.py` (repository
`atseng95/att_priors`): the model factory (`create_model`), the loss module
(`model_loss` with its annealing schedule), the epoch runner's gradient guard
and return-data collection (`run_epoch`), and the training driver's
early-stopping loop (`train_model`).

Python floats that can be NaN are embedded as `Option ℚ` (with `none` for NaN),
real-valued loss arithmetic as `ℝ`, fallible operations (out-of-range numpy
writes, `np.max` of an empty array, unbound Python locals) as `Option`.
-/

namespace TrainProfileModel

/-! ## Model factory (`create_model`, lines 130-161) -/

/-- The three predictor variants that `create_model` can select. -/
inductive PredictorClass
  | withoutControls
  | withMatchedControls
  | withSharedControls
  deriving DecidableEq

/-- Embeds lines 139-144 of `create_model`: an `if controls is None` statement
followed by a separate `if controls == "matched"` / `elif controls == "shared"`
chain. `predictor_class` starts unbound (`none`); a branch that fires binds it.
`controls` is `Option String` (`none` embeds Python `None`). -/
def select_predictor_class (controls : Option String) : Option PredictorClass :=
  let pc0 : Option PredictorClass := none
  let pc1 := if controls = none then some PredictorClass.withoutControls else pc0
  if controls = some ("matched") then some PredictorClass.withMatchedControls
  else if controls = some ("shared") then some PredictorClass.withSharedControls
  else pc1

/-- Embeds `create_model`: line 146 calls `predictor_class(...)`, which raises
`NameError` (`none`) when no branch of lines 139-144 bound the name. -/
def create_model (controls : Option String) : Option PredictorClass :=
  select_predictor_class controls

/-! ## Loss module (`model_loss`, lines 164-228) -/

/-- The model object passed to `model_loss`: its two loss methods, abstract over
the tensor types `P` (profile tensors), `C` (count tensors), `G` (input
gradients), `S` (status vector). `correctness_loss` returns
`(corr_loss, prof_loss, count_loss)` (called with `return_separate_losses=True`).
`fourier_att_prior_loss` takes the possibly-`None` status and input gradients
plus the frequency limit, softness and smoothing sigma, and returns `none` when
it raises (e.g. on `None` tensor arguments). -/
structure ProfileModel (P C G S : Type) where
  correctness_loss : P → P → C → ℝ → ℝ × ℝ × ℝ
  fourier_att_prior_loss : Option S → Option G → ℕ → Option ℝ → ℕ → Option ℝ

/-- Embeds lines 214-221 of `model_loss`: the epoch-dependent annealed weight.
`anneal_type` is `None`, `"inflate"`, `"deflate"`, or anything else (in which
case the local `weight` is left unbound, embedded as `none`; reading it raises).
The anneal speed is `Option ℝ` because the config sets it to `None` when no
annealing is configured. -/
noncomputable def annealWeight (base : ℝ) (anneal_type : Option String)
    (anneal_speed : Option ℝ) (epoch_num : ℕ) : Option ℝ :=
  match anneal_type with
  | none => some base
  | some ("inflate") =>
      anneal_speed.map fun c => base * (2 / (1 + Real.exp (-c * epoch_num)) - 1)
  | some ("deflate") =>
      anneal_speed.map fun c => base * Real.exp (-c * epoch_num)
  | some _ => none

/-- Embeds `model_loss` (lines 164-228). Returns the triple
`(final_loss, (corr_loss, att_prior_loss), (prof_loss, count_loss))`, or `none`
when the Python code raises (fourier loss on `None` arguments, or reading the
unbound `weight` local after an unrecognized anneal type). The guard
`if not att_prior_loss_weight` is falsy exactly at weight `0`. `torch.zeros(1)`
is embedded as the scalar `0`. -/
noncomputable def model_loss {P C G S : Type} (model : ProfileModel P C G S)
    (true_profs log_pred_profs : P) (log_pred_counts : C) (epoch_num : ℕ)
    (counts_loss_weight att_prior_loss_weight : ℝ)
    (anneal_type : Option String) (anneal_speed : Option ℝ)
    (grad_smooth_sigma freq_limit : ℕ) (freq_softness : Option ℝ)
    (att_prior_loss_only : Bool)
    (input_grads : Option G) (status : Option S) :
    Option (ℝ × (ℝ × ℝ) × (ℝ × ℝ)) :=
  let r := model.correctness_loss true_profs log_pred_profs log_pred_counts
    counts_loss_weight
  let corr_loss := r.1
  let prof_loss := r.2.1
  let count_loss := r.2.2
  if att_prior_loss_weight = 0 then
    some (corr_loss, (corr_loss, 0), (prof_loss, count_loss))
  else
    match model.fourier_att_prior_loss status input_grads freq_limit
        freq_softness grad_smooth_sigma with
    | none => none
    | some att_prior_loss =>
      if att_prior_loss_only then
        some (att_prior_loss, (corr_loss, att_prior_loss),
          (prof_loss, count_loss))
      else
        match annealWeight att_prior_loss_weight anneal_type anneal_speed
            epoch_num with
        | none => none
        | some weight =>
            some (corr_loss + weight * att_prior_loss,
              (corr_loss, att_prior_loss), (prof_loss, count_loss))

/-! ## Epoch runner: gradient guard (lines 317-352) -/

/-- Embeds the per-batch branch of `run_epoch` on `att_prior_loss_weight`:
when the weight is `> 0` the runner computes input gradients and the status
vector and passes them on (line 334-348); otherwise it passes
`status, input_grads = None, None` (line 352). `computed` stands for the values
the gradient branch would produce. -/
noncomputable def run_epoch_status_grads {S G : Type} (att_prior_loss_weight : ℝ)
    (computed : S × G) : Option S × Option G :=
  if att_prior_loss_weight > 0 then (some computed.1, some computed.2)
  else (none, none)

/-! ## Epoch runner: return-data collection (lines 281-296 and 372-411) -/

/-- The capacity preallocated by `run_epoch` when `return_data` is set
(lines 283-284): `num_batches * batch_size`, doubled when `revcomp`. -/
def expectedSamples (num_batches batch_size : ℕ) (revcomp : Bool) : ℕ :=
  num_batches * batch_size * (if revcomp then 2 else 1)

/-- One batch's per-example data, as produced inside the loop of `run_epoch`
(lines 372-394): each field is a list of per-example rows, with abstract row
types `P` (profiles), `C` (counts), `S` (sequence-shaped arrays), `X`
(coordinates). `num_in_batch` is `trueCounts.length` (line 378). -/
structure Batch (P C S X : Type) where
  logPredProfs : List P
  logPredCounts : List C
  trueProfs : List P
  trueCounts : List C
  inputSeqs : List S
  inputGrads : List S
  coords : List X

/-- The preallocated accumulation arrays of `run_epoch` (lines 288-295) plus
the running `num_samples_seen` counter. -/
structure Collected (P C S X : Type) where
  allLogPredProfs : List P
  allLogPredCounts : List C
  allTrueProfs : List P
  allTrueCounts : List C
  allInputSeqs : List S
  allInputGrads : List S
  allCoords : List X
  numSamplesSeen : ℕ

/-- The array resulting from writing `vals` over rows `start..start+n` of
`arr`. -/
def writeSlice {α : Type} (arr : List α) (start n : ℕ) (vals : List α) :
    List α :=
  arr.take start ++ vals ++ arr.drop (start + n)

/-- Embeds the numpy slice assignment `arr[start:start+n] = vals` on the first
axis: succeeds only when `vals` has exactly `n` rows and the slice lies inside
the array, otherwise numpy raises (`none`). -/
def sliceAssign {α : Type} (arr : List α) (start n : ℕ) (vals : List α) :
    Option (List α) :=
  if vals.length = n ∧ start + n ≤ arr.length then
    some (writeSlice arr start n vals)
  else none

/-- Embeds lines 378-396: fill one batch's rows into the preallocated arrays at
`start = num_samples_seen`, `end = start + num_in_batch`, then advance the
counter. `all_input_grads` is written only when the attribution prior weight is
truthy (line 392). -/
def fillBatch {P C S X : Type} (attWeightTruthy : Bool)
    (c : Collected P C S X) (b : Batch P C S X) : Option (Collected P C S X) := do
  let n := b.trueCounts.length
  let start := c.numSamplesSeen
  let a1 ← sliceAssign c.allLogPredProfs start n b.logPredProfs
  let a2 ← sliceAssign c.allLogPredCounts start n b.logPredCounts
  let a3 ← sliceAssign c.allTrueProfs start n b.trueProfs
  let a4 ← sliceAssign c.allTrueCounts start n b.trueCounts
  let a5 ← sliceAssign c.allInputSeqs start n b.inputSeqs
  let a6 ← if attWeightTruthy then sliceAssign c.allInputGrads start n b.inputGrads
           else some c.allInputGrads
  let a7 ← sliceAssign c.allCoords start n b.coords
  some ⟨a1, a2, a3, a4, a5, a6, a7, start + n⟩

/-- The batch loop of `run_epoch` restricted to its `return_data` bookkeeping:
fold `fillBatch` over the batches. -/
def runCollect {P C S X : Type} (attWeightTruthy : Bool) :
    Collected P C S X → List (Batch P C S X) → Option (Collected P C S X)
  | c, [] => some c
  | c, b :: bs =>
    match fillBatch attWeightTruthy c b with
    | none => none
    | some c2 => runCollect attWeightTruthy c2 bs

/-- Embeds lines 398-407: truncate every accumulated array to
`num_samples_seen` rows. -/
def truncateCollected {P C S X : Type} (c : Collected P C S X) :
    Collected P C S X :=
  ⟨c.allLogPredProfs.take c.numSamplesSeen,
   c.allLogPredCounts.take c.numSamplesSeen,
   c.allTrueProfs.take c.numSamplesSeen,
   c.allTrueCounts.take c.numSamplesSeen,
   c.allInputSeqs.take c.numSamplesSeen,
   c.allInputGrads.take c.numSamplesSeen,
   c.allCoords.take c.numSamplesSeen,
   c.numSamplesSeen⟩

/-- The `return_data` path of `run_epoch`: accumulate all batches, then
truncate. -/
def runEpochReturnData {P C S X : Type} (attWeightTruthy : Bool)
    (init : Collected P C S X) (batches : List (Batch P C S X)) :
    Option (Collected P C S X) :=
  (runCollect attWeightTruthy init batches).map truncateCollected

/-- All per-example lists of a batch have `num_in_batch = trueCounts.length`
rows (in the source they all come from the same input batch through the model,
and numpy enforces the shared length at the slice assignments). -/
abbrev batchConsistent {P C S X : Type} (b : Batch P C S X) : Prop :=
  b.logPredProfs.length = b.trueCounts.length ∧
  b.logPredCounts.length = b.trueCounts.length ∧
  b.trueProfs.length = b.trueCounts.length ∧
  b.inputSeqs.length = b.trueCounts.length ∧
  b.inputGrads.length = b.trueCounts.length ∧
  b.coords.length = b.trueCounts.length

/-- Every accumulated array of `c` has first dimension `cap`. -/
abbrev collectedCap {P C S X : Type} (c : Collected P C S X) (cap : ℕ) : Prop :=
  c.allLogPredProfs.length = cap ∧
  c.allLogPredCounts.length = cap ∧
  c.allTrueProfs.length = cap ∧
  c.allTrueCounts.length = cap ∧
  c.allInputSeqs.length = cap ∧
  c.allInputGrads.length = cap ∧
  c.allCoords.length = cap

/-! ## Training driver: epoch loop with early stopping (lines 450-512) -/

/-- An epoch loss value as used by the driver: `none` embeds a NaN float. -/
abbrev NVal := Option ℚ

/-- NaN-propagating subtraction, as in numpy elementwise arithmetic. -/
def nvSub (x y : NVal) : NVal :=
  match x, y with
  | some a, some b => some (a - b)
  | _, _ => none

/-- Embeds `np.diff` on a 1-D array: successive differences `a[i+1] - a[i]`. -/
def npDiff : List NVal → List NVal
  | a :: b :: rest => nvSub b a :: npDiff (b :: rest)
  | _ => []

/-- NaN-propagating binary maximum, as used by `np.max`. -/
def nvMax (x y : NVal) : NVal :=
  match x, y with
  | some a, some b => some (max a b)
  | _, _ => none

/-- Embeds `np.max` on a 1-D array: raises `ValueError` (`none`) on an empty
array, and returns NaN when any entry is NaN. -/
def npMax : List NVal → Option NVal
  | [] => none
  | x :: xs => some (xs.foldl nvMax x)

/-- IEEE-style comparison `x < d`: `false` whenever `x` is NaN. -/
def nvLtBool (x : NVal) (d : ℚ) : Bool :=
  match x with
  | some a => decide (a < d)
  | none => false

/-- Outcome of one iteration of the epoch loop of `train_model` after the
checkpoint save: `next hist decision` continues to the next epoch with the
updated validation-loss history, recording the early-stopping window when a
stop decision was evaluated; `nanStop` is the break of line 499; `earlyStop` is
the break of line 512; `histErr` is the `ValueError` that `np.max` raises on an
empty difference array in line 510. -/
inductive StepOutcome
  | next (hist : List NVal) (decision : Option (List NVal))
  | nanStop
  | earlyStop (window : List NVal)
  | histErr (window : List NVal)
  deriving DecidableEq

/-- Embeds lines 497-512 of `train_model` for one epoch, given the epoch's
train and validation losses `t` and `v` and the current `val_epoch_loss_hist`:
first the simultaneous-NaN break, then (when `early_stopping`) either the
history-fill branch (`len < early_stop_hist_len - 1`) or the decision branch,
which prepends the new loss, drops the oldest, and stops when
`np.max(np.diff(hist)) < early_stop_min_delta`. -/
def epochStep (early_stopping : Bool) (early_stop_hist_len : ℕ)
    (early_stop_min_delta : ℚ) (hist : List NVal) (t v : NVal) : StepOutcome :=
  if t = none ∧ v = none then .nanStop
  else if early_stopping then
    if hist.length < early_stop_hist_len - 1 then .next (v :: hist) none
    else
      let window := v :: hist.dropLast
      match npMax (npDiff window) with
      | none => .histErr window
      | some best =>
        if nvLtBool best early_stop_min_delta then .earlyStop window
        else .next window (some window)
  else .next hist none

/-- How a run of the epoch loop ended: exhausted `num_epochs` (`finished`),
the simultaneous-NaN break, the early-stopping break, or an uncaught
`ValueError` from `np.max`. -/
inductive RunEnd
  | finished
  | nanEnd
  | earlyEnd
  | errEnd
  deriving DecidableEq

/-- Result of running the epoch loop: final history, the early-stopping windows
in force at each stop decision that was evaluated, and how the loop ended. -/
structure RunResult where
  hist : List NVal
  decisions : List (List NVal)
  ending : RunEnd
  deriving DecidableEq

/-- The epoch loop of `train_model` (lines 453-512), abstracted over the
per-epoch train/validation losses it observes: run `epochStep` for each epoch
in order, stopping as the step dictates. -/
def runEpochs (early_stopping : Bool) (early_stop_hist_len : ℕ)
    (early_stop_min_delta : ℚ) (hist : List NVal) :
    List (NVal × NVal) → RunResult
  | [] => ⟨hist, [], .finished⟩
  | (t, v) :: rest =>
    match epochStep early_stopping early_stop_hist_len early_stop_min_delta
        hist t v with
    | .next h d =>
      let r := runEpochs early_stopping early_stop_hist_len
        early_stop_min_delta h rest
      ⟨r.hist, d.toList ++ r.decisions, r.ending⟩
    | .nanStop => ⟨hist, [], .nanEnd⟩
    | .earlyStop w => ⟨w, [w], .earlyEnd⟩
    | .histErr w => ⟨w, [], .errEnd⟩

/-! ## Attribution-prior loss (Fourier method)

`model.fourier_att_prior_loss` is implemented in `model/profile_models.py`,
which is not part of this source tree; the definitions below are modelled from
the spec (section 4.2) and are used only to settle the scale-invariance
property. -/

/-- Modelled from the spec: the per-input saliency, "gradient of profile output
with respect to input, elementwise multiplied by the input, summed across
strand/task dimensions". The gradient-times-input tensor for one example is a
list of positions, each a list over the input depth; the saliency sums each
position. -/
noncomputable def saliencyOf (ex : List (List ℝ)) : List ℝ :=
  ex.map List.sum

/-- Modelled from the spec: one neighbour term of the fixed-bandwidth symmetric
smoothing window of size `1 + 2*sigma`; positions outside the sequence
contribute `0`. The neighbour of position `i` at window offset `j` is
`i + j - sigma`. -/
noncomputable def smoothNbr (s : List ℝ) (sigma i j : ℕ) : ℝ :=
  if sigma ≤ i + j then s.getD (i + j - sigma) 0 else 0

/-- Modelled from the spec: smoothing the saliency "with a fixed-bandwidth
symmetric smoothing kernel" of window size `1 + 2*sigma` (uniform weights). -/
noncomputable def smoothSaliency (sigma : ℕ) (s : List ℝ) : List ℝ :=
  (List.range s.length).map fun i =>
    (((List.range (2 * sigma + 1)).map fun j => smoothNbr s sigma i j).sum) /
      (2 * sigma + 1)

/-- Total energy (sum of squares) of a saliency vector. -/
noncomputable def energyOf (s : List ℝ) : ℝ :=
  (s.map fun x => x * x).sum

/-- Modelled from the spec: "unit-energy saliency vectors before taking
frequency energy" — divide by the square root of the total energy (a zero
vector stays zero, via division by zero). -/
noncomputable def normalizeSaliency (s : List ℝ) : List ℝ :=
  s.map fun x => x / Real.sqrt (energyOf s)

/-- Discrete-Fourier cosine component of `s` at integer frequency `f`. -/
noncomputable def dftCos (s : List ℝ) (f : ℕ) : ℝ :=
  ((List.range s.length).map fun i =>
    s.getD i 0 * Real.cos (2 * Real.pi * f * i / s.length)).sum

/-- Discrete-Fourier sine component of `s` at integer frequency `f`. -/
noncomputable def dftSin (s : List ℝ) (f : ℕ) : ℝ :=
  ((List.range s.length).map fun i =>
    s.getD i 0 * Real.sin (2 * Real.pi * f * i / s.length)).sum

/-- Frequency energy of `s` at integer frequency `f`. -/
noncomputable def dftEnergy (s : List ℝ) (f : ℕ) : ℝ :=
  dftCos s f * dftCos s f + dftSin s f * dftSin s f

/-- Modelled from the spec: the attenuation applied beyond the frequency
cutoff. Below or at the limit nothing is penalized; beyond it, components are
retained with a soft power-law taper `1 / (1 + x^c)` (or in full, when no
softness is given). -/
noncomputable def freqTaper (freq_limit : ℕ) (softness : Option ℝ) (f : ℕ) : ℝ :=
  if f ≤ freq_limit then 0
  else
    match softness with
    | none => 1
    | some c => 1 / (1 + ((f : ℝ) - freq_limit) ^ c)

/-- Modelled from the spec: the penalized high-frequency energy of one
(already normalized) saliency vector: the energy retained beyond the cutoff
after the taper. -/
noncomputable def hfPenalty (freq_limit : ℕ) (softness : Option ℝ)
    (s : List ℝ) : ℝ :=
  ((List.range s.length).map fun f =>
    freqTaper freq_limit softness f * dftEnergy s f).sum

/-- Modelled from the spec: the full per-example pipeline — saliency,
smoothing, unit-energy normalization, penalized high-frequency energy. -/
noncomputable def exPenalty (sigma freq_limit : ℕ) (softness : Option ℝ)
    (ex : List (List ℝ)) : ℝ :=
  hfPenalty freq_limit softness
    (normalizeSaliency (smoothSaliency sigma (saliencyOf ex)))

/-- Modelled from the spec: the per-example penalties of exactly the examples
flagged positive ("negative examples are excluded from this term"). -/
noncomputable def posPenalties (sigma freq_limit : ℕ) (softness : Option ℝ) :
    List Bool → List (List (List ℝ)) → List ℝ
  | st :: sts, ex :: exs =>
    (if st then [exPenalty sigma freq_limit softness ex] else []) ++
      posPenalties sigma freq_limit softness sts exs
  | _, _ => []

/-- Modelled from the spec: `fourier_att_prior_loss` (the body of
`model/profile_models.py`, absent from this tree) — the mean penalized
high-frequency energy over the positive-status examples (a batch with no
positive examples contributes `0`, via division by zero). -/
noncomputable def fourier_att_prior_loss (statuses : List Bool)
    (input_grads : List (List (List ℝ))) (freq_limit : ℕ)
    (softness : Option ℝ) (sigma : ℕ) : ℝ :=
  let ps := posPenalties sigma freq_limit softness statuses input_grads
  ps.sum / ps.length

/-- Successive differences of a NaN-free window, as rationals. -/
def qdiffs : List ℚ → List ℚ
  | a :: b :: rest => (b - a) :: qdiffs (b :: rest)
  | _ => []

/-- `np.max(np.diff(window))` on a NaN-free window: the maximum successive
improvement (each entry of `np.diff` on the newest-first history is an older
loss minus the next newer one). `none` when the window has fewer than two
entries. -/
def maxSuccImprovement (window : List ℚ) : Option ℚ :=
  match qdiffs window with
  | [] => none
  | d :: ds => some (ds.foldl max d)

/-! ## Helper lemmas for the early-stopping embedding -/

theorem npDiff_map_some (l : List ℚ) :
    npDiff (l.map some) = (qdiffs l).map some := by
  induction l with
  | nil => rfl
  | cons a tl ih =>
    cases tl with
    | nil => rfl
    | cons b rest =>
      have ih' : npDiff (some b :: rest.map some) = (qdiffs (b :: rest)).map some := by
        simpa using ih
      simp [npDiff, qdiffs, nvSub, ih']

theorem foldl_nvMax_map_some (l : List ℚ) (x : ℚ) :
    (l.map some).foldl nvMax (some x) = some (l.foldl max x) := by
  induction l generalizing x with
  | nil => rfl
  | cons a tl ih => simp [List.foldl_cons, nvMax, ih]

theorem npMax_map_some (d : ℚ) (ds : List ℚ) :
    npMax ((d :: ds).map some) = some (some (ds.foldl max d)) := by
  simp [npMax, foldl_nvMax_map_some]

theorem le_foldl_max : ∀ (ds : List ℚ) (d x : ℚ), x ∈ d :: ds →
    x ≤ ds.foldl max d := by
  intro ds
  induction ds with
  | nil =>
    intro d x h
    simp only [List.mem_singleton] at h
    simp [h]
  | cons e es ih =>
    intro d x h
    rw [List.foldl_cons]
    rcases List.mem_cons.mp h with h1 | h2
    · rw [h1]
      exact le_trans (le_max_left d e)
        (ih (max d e) (max d e) (List.mem_cons_self _ _))
    · rcases List.mem_cons.mp h2 with h3 | h4
      · rw [h3]
        exact le_trans (le_max_right d e)
          (ih (max d e) (max d e) (List.mem_cons_self _ _))
      · exact ih (max d e) x (List.mem_cons_of_mem _ h4)

theorem npMax_eq_none_iff (l : List NVal) : npMax l = none ↔ l = [] := by
  cases l <;> simp [npMax]

theorem npDiff_length (l : List NVal) : (npDiff l).length = l.length - 1 := by
  induction l with
  | nil => rfl
  | cons a tl ih =>
    cases tl with
    | nil => rfl
    | cons b rest =>
      simp [npDiff] at ih ⊢
      omega

/-- The decision branch of `epochStep`: once the history-fill condition fails,
the step prepends the new loss, drops the oldest, takes `np.max(np.diff(...))`
of the resulting window, and stops, continues, or raises accordingly. -/
theorem epochStep_decision (hl : ℕ) (md : ℚ) (hist : List NVal) (t v : NVal)
    (hnan : ¬(t = none ∧ v = none)) (hge : hl - 1 ≤ hist.length) :
    epochStep true hl md hist t v =
      match npMax (npDiff (v :: hist.dropLast)) with
      | none => .histErr (v :: hist.dropLast)
      | some best =>
        if nvLtBool best md then .earlyStop (v :: hist.dropLast)
        else .next (v :: hist.dropLast) (some (v :: hist.dropLast)) := by
  have h1 : ¬hist.length < hl - 1 := not_lt.mpr hge
  simp [epochStep, hnan, h1]

/-! ## Claim theorems -/

/-- Claim C2: with early stopping enabled, before the validation-loss window is
full (`len < early_stop_hist_len - 1`) the epoch step takes no stop decision
and only grows the history; once it is full, the step stops exactly when the
maximum successive improvement over the newest-first window (new loss
prepended, oldest dropped) is below `early_stop_min_delta`, and continues
whenever some successive improvement reaches the delta. The history is NaN-free
here (NaN histories make every comparison false). -/
theorem early_stopping_rule (hl : ℕ) (md : ℚ) (histQ : List ℚ) (t : NVal)
    (vq : ℚ) :
    (histQ.length < hl - 1 →
      epochStep true hl md (histQ.map some) t (some vq) =
        .next (some vq :: histQ.map some) none) ∧
    (hl - 1 ≤ histQ.length →
      (∀ b, maxSuccImprovement (vq :: histQ.dropLast) = some b → b < md →
        epochStep true hl md (histQ.map some) t (some vq) =
          .earlyStop ((vq :: histQ.dropLast).map some)) ∧
      ((∃ d ∈ qdiffs (vq :: histQ.dropLast), md ≤ d) →
        epochStep true hl md (histQ.map some) t (some vq) =
          .next ((vq :: histQ.dropLast).map some)
            (some ((vq :: histQ.dropLast).map some)))) := by
  have hnan : ¬(t = none ∧ (some vq : NVal) = none) := by simp
  have hwin : some vq :: (histQ.map some).dropLast =
      (vq :: histQ.dropLast).map some := by
    simp [List.map_dropLast]
  refine ⟨?_, fun hge => ⟨?_, ?_⟩⟩
  · intro hlt
    simp [epochStep, hnan, hlt]
  · intro b hb hbm
    have hge' : hl - 1 ≤ (histQ.map some).length := by simpa using hge
    have hdec := epochStep_decision hl md (histQ.map some) t (some vq) hnan hge'
    rw [hwin] at hdec
    cases hq : qdiffs (vq :: histQ.dropLast) with
    | nil => simp [maxSuccImprovement, hq] at hb
    | cons d ds =>
      simp only [maxSuccImprovement, hq] at hb
      have hb' : ds.foldl max d = b := Option.some.inj hb
      rw [hdec, npDiff_map_some, hq, npMax_map_some, hb']
      simp [nvLtBool, hbm]
  · rintro ⟨d0, hd0mem, hd0⟩
    have hge' : hl - 1 ≤ (histQ.map some).length := by simpa using hge
    have hdec := epochStep_decision hl md (histQ.map some) t (some vq) hnan hge'
    rw [hwin] at hdec
    cases hq : qdiffs (vq :: histQ.dropLast) with
    | nil => rw [hq] at hd0mem; simp at hd0mem
    | cons d ds =>
      rw [hq] at hd0mem
      have hle : md ≤ ds.foldl max d :=
        le_trans hd0 (le_foldl_max ds d d0 hd0mem)
      rw [hdec, npDiff_map_some, hq, npMax_map_some]
      simp [nvLtBool, not_lt.mpr hle]

/-- Witness for C2 at a concrete state: with `early_stop_hist_len = 3`,
`early_stop_min_delta = 1` and history `[5, 6]` (newest first), a new
validation loss of `5` gives maximum improvement `0 < 1` and stops, while a
new validation loss of `3` gives an improvement `2 ≥ 1` and continues. -/
theorem early_stopping_rule_witness :
    (3 - 1 ≤ ([5, 6] : List ℚ).length) ∧
    (maxSuccImprovement ((5 : ℚ) :: ([5, 6] : List ℚ).dropLast) = some 0 ∧
      (0 : ℚ) < 1 ∧
      epochStep true 3 1 (([5, 6] : List ℚ).map some) (some 1) (some 5) =
        .earlyStop (((5 : ℚ) :: ([5, 6] : List ℚ).dropLast).map some)) ∧
    ((∃ d ∈ qdiffs ((3 : ℚ) :: ([5, 6] : List ℚ).dropLast), (1 : ℚ) ≤ d) ∧
      epochStep true 3 1 (([5, 6] : List ℚ).map some) (some 1) (some 3) =
        .next (((3 : ℚ) :: ([5, 6] : List ℚ).dropLast).map some)
          (some (((3 : ℚ) :: ([5, 6] : List ℚ).dropLast).map some))) :=
  ⟨by simp,
   ⟨by norm_num [maxSuccImprovement, qdiffs], by norm_num,
    ((early_stopping_rule 3 1 [5, 6] (some 1) 5).2 (by simp)).1 0
      (by norm_num [maxSuccImprovement, qdiffs]) (by norm_num)⟩,
   ⟨by norm_num [qdiffs],
    ((early_stopping_rule 3 1 [5, 6] (some 1) 3).2 (by simp)).2
      (by norm_num [qdiffs])⟩⟩

/-- Claim C5: an epoch whose train and validation losses are both NaN ends the
epoch loop immediately, for every early-stopping configuration and history and
whatever epochs would have followed; no early-stopping decision is evaluated in
that epoch. -/
theorem runEpochs_nan_stop (es : Bool) (hl : ℕ) (md : ℚ) (hist : List NVal)
    (rest : List (NVal × NVal)) :
    runEpochs es hl md hist ((none, none) :: rest) =
      ⟨hist, [], RunEnd.nanEnd⟩ := by
  simp [runEpochs, epochStep]

/-- Claim C10 (amended): with `early_stop_hist_len = 1` the history-fill branch
is skipped on the very first epoch (`0 < 0` fails) and the stop check takes
`np.max` of the empty difference array of the single-element window, raising;
the check is well-defined only for `early_stop_hist_len ≥ 3` (with length 2 the
first decision also raises, see the counterexample). -/
theorem early_stop_hist_len_bounds :
    (∀ (md : ℚ) (t v : NVal), ¬(t = none ∧ v = none) →
      epochStep true 1 md [] t v = .histErr [v]) ∧
    (∀ (hl : ℕ) (md : ℚ) (hist : List NVal) (t v : NVal) (w : List NVal),
      3 ≤ hl → epochStep true hl md hist t v ≠ .histErr w) := by
  constructor
  · intro md t v hnan
    simp [epochStep, hnan, npDiff, npMax]
  · intro hl md hist t v w h3 hc
    by_cases hnan : t = none ∧ v = none
    · simp [epochStep, hnan] at hc
    · by_cases hfill : hist.length < hl - 1
      · simp [epochStep, hnan, hfill] at hc
      · have hge : hl - 1 ≤ hist.length := not_lt.mp hfill
        have hdl : (npDiff (v :: hist.dropLast)).length = hist.length - 1 := by
          rw [npDiff_length]
          simp
        obtain ⟨m, hm⟩ : ∃ m, npMax (npDiff (v :: hist.dropLast)) = some m := by
          cases hd : npDiff (v :: hist.dropLast) with
          | nil =>
            rw [hd] at hdl
            simp at hdl
            omega
          | cons x xs => exact ⟨xs.foldl nvMax x, by simp [hd, npMax]⟩
        by_cases hlt : nvLtBool m md = true
        · simp [epochStep, hnan, hfill, hm, hlt] at hc
        · simp [epochStep, hnan, hfill, hm, hlt] at hc

/-- Witness for the amended C10: at `early_stop_hist_len = 1` the first epoch
raises; at `early_stop_hist_len = 3` no state can raise. -/
theorem early_stop_hist_len_bounds_witness :
    (¬((some (0 : ℚ) : NVal) = none ∧ (some (0 : ℚ) : NVal) = none)) ∧
    epochStep true 1 1 [] (some (0 : ℚ)) (some 0) = .histErr [some 0] ∧
    (3 ≤ 3 ∧ epochStep true 3 1 [] (some (0 : ℚ)) (some 0) ≠ .histErr []) :=
  ⟨by simp, early_stop_hist_len_bounds.1 1 (some 0) (some 0) (by simp),
   by norm_num,
   early_stop_hist_len_bounds.2 3 1 [] (some 0) (some 0) [] (by norm_num)⟩

/-- Counterexample to C10 as stated ("well-defined for
`early_stop_hist_len ≥ 2`"): with `early_stop_hist_len = 2` the run raises at
its first stop decision — epoch 2's window `[v]` has an empty `np.diff`, whose
`np.max` raises `ValueError`. -/
theorem early_stop_hist_len_two_counterexample :
    (runEpochs true 2 1 [] [(some 1, some 1), (some 1, some 2)]).ending =
      RunEnd.errEnd := by
  have e0 : epochStep true 2 1 [] (some 1) (some 1) = .next [some 1] none := by
    simp [epochStep]
  have e1 : epochStep true 2 1 [some 1] (some 1) (some 2) =
      .histErr [some 2] := by
    simp [epochStep, npDiff, nvSub, npMax]
  simp [runEpochs, e0, e1]

/-- The state invariant behind C3: starting from a history that holds the
newest-first most recent `early_stop_hist_len - 1` of the already-consumed
validation losses, every early-stopping decision window produced by the
remaining epochs holds exactly the newest-first most recent
`early_stop_hist_len - 1` validation losses seen up to that decision. -/
theorem runEpochs_decision_windows (hl : ℕ) (md : ℚ) (hhl : 2 ≤ hl) :
    ∀ (epochs : List (NVal × NVal)) (consumed : List NVal),
      ∀ w ∈ (runEpochs true hl md (consumed.reverse.take (hl - 1))
          epochs).decisions,
        ∃ k, hl - 1 ≤ k ∧ k ≤ consumed.length + epochs.length ∧
          w = ((consumed ++ epochs.map Prod.snd).take k).reverse.take (hl - 1) := by
  intro epochs
  induction epochs with
  | nil =>
    intro consumed w hw
    simp [runEpochs] at hw
  | cons e rest ih =>
    obtain ⟨t, v⟩ := e
    intro consumed w hw
    by_cases hnan : t = none ∧ v = none
    · have hstep : epochStep true hl md (consumed.reverse.take (hl - 1)) t v =
          .nanStop := by simp [epochStep, hnan.1, hnan.2]
      simp only [runEpochs, hstep] at hw
      simp at hw
    · by_cases hfill : (consumed.reverse.take (hl - 1)).length < hl - 1
      · -- history-fill branch
        have hcl : consumed.length < hl - 1 := by
          simp [List.length_take] at hfill
          omega
        have hid : v :: consumed.reverse.take (hl - 1) =
            (consumed ++ [v]).reverse.take (hl - 1) := by
          obtain ⟨m, hm⟩ : ∃ m, hl - 1 = m + 1 := ⟨hl - 2, by omega⟩
          have h1 : consumed.reverse.take (m + 1) = consumed.reverse :=
            List.take_of_length_le (by simp; omega)
          have h2 : consumed.reverse.take m = consumed.reverse :=
            List.take_of_length_le (by simp; omega)
          rw [hm, List.reverse_append, List.reverse_singleton,
            List.singleton_append, List.take_succ_cons, h1, h2]
        have hstep : epochStep true hl md (consumed.reverse.take (hl - 1)) t v =
            .next (v :: consumed.reverse.take (hl - 1)) none := by
          simp [epochStep, hnan, hfill]
          intro h
          exact absurd h (by omega)
        simp only [runEpochs, hstep] at hw
        simp only [Option.toList_none, List.nil_append] at hw
        rw [hid] at hw
        obtain ⟨k, hk1, hk2, hk3⟩ := ih (consumed ++ [v]) w hw
        refine ⟨k, hk1, ?_, ?_⟩
        · simp at hk2 ⊢
          omega
        · simpa [List.append_assoc] using hk3
      · -- decision branch
        have hge : hl - 1 ≤ consumed.length := by
          simp [List.length_take] at hfill
          omega
        have hge' : hl - 1 ≤ (consumed.reverse.take (hl - 1)).length := by
          simp [List.length_take]
          omega
        have hlenh : (consumed.reverse.take (hl - 1)).length = hl - 1 := by
          simp [List.length_take]
          omega
        have hid : v :: (consumed.reverse.take (hl - 1)).dropLast =
            (consumed ++ [v]).reverse.take (hl - 1) := by
          obtain ⟨m, hm⟩ : ∃ m, hl - 1 = m + 1 := ⟨hl - 2, by omega⟩
          rw [List.dropLast_eq_take, hlenh, List.reverse_append,
            List.reverse_singleton, List.singleton_append, hm,
            List.take_succ_cons, List.take_take]
          have hmin : min (m + 1 - 1) (m + 1) = m := by omega
          rw [hmin]
        have htake : (consumed ++ ((t, v) :: rest).map Prod.snd).take
            (consumed.length + 1) = consumed ++ [v] := by
          have hsplit : consumed ++ ((t, v) :: rest).map Prod.snd =
              (consumed ++ [v]) ++ rest.map Prod.snd := by simp
          rw [hsplit, List.take_left']
          simp
        cases hmx : npMax (npDiff (v :: (consumed.reverse.take (hl - 1)).dropLast)) with
        | none =>
          have hstep : epochStep true hl md (consumed.reverse.take (hl - 1)) t v =
              .histErr (v :: (consumed.reverse.take (hl - 1)).dropLast) := by
            simp [epochStep, hnan, hfill, hmx]
            omega
          simp only [runEpochs, hstep] at hw
          simp at hw
        | some best =>
          by_cases hlt : nvLtBool best md = true
          · have hstep : epochStep true hl md (consumed.reverse.take (hl - 1)) t v =
                .earlyStop (v :: (consumed.reverse.take (hl - 1)).dropLast) := by
              simp [epochStep, hnan, hfill, hmx, hlt]
              omega
            simp only [runEpochs, hstep] at hw
            simp at hw
            refine ⟨consumed.length + 1, by omega, by simp, ?_⟩
            rw [hw, hid, htake]
          · have hstep : epochStep true hl md (consumed.reverse.take (hl - 1)) t v =
                .next (v :: (consumed.reverse.take (hl - 1)).dropLast)
                  (some (v :: (consumed.reverse.take (hl - 1)).dropLast)) := by
              simp [epochStep, hnan, hfill, hmx, hlt]
              omega
            simp only [runEpochs, hstep] at hw
            simp only [Option.toList_some, List.cons_append, List.nil_append,
              List.mem_cons] at hw
            rcases hw with hw1 | hw2
            · refine ⟨consumed.length + 1, by omega, by simp, ?_⟩
              rw [hw1, hid, htake]
            · rw [hid] at hw2
              obtain ⟨k, hk1, hk2, hk3⟩ := ih (consumed ++ [v]) w hw2
              refine ⟨k, hk1, ?_, ?_⟩
              · simp at hk2 ⊢
                omega
              · simpa [List.append_assoc] using hk3

/-- Claim C3 (amended): with early stopping enabled and
`early_stop_hist_len ≥ 2`, at the time of every early-stopping decision the
validation-loss history holds exactly the most recent
`early_stop_hist_len - 1` (not `early_stop_hist_len`) validation epoch losses,
newest first: every decision window equals the newest-first reversal of the
first `k` validation losses truncated to `early_stop_hist_len - 1` entries,
for the number `k ≥ early_stop_hist_len - 1` of epochs consumed so far. -/
theorem early_stopping_window_content (hl : ℕ) (md : ℚ)
    (epochs : List (NVal × NVal)) (hhl : 2 ≤ hl) :
    ∀ w ∈ (runEpochs true hl md [] epochs).decisions,
      ∃ k, hl - 1 ≤ k ∧ k ≤ epochs.length ∧
        w = ((epochs.map Prod.snd).take k).reverse.take (hl - 1) := by
  have h := runEpochs_decision_windows hl md hhl epochs []
  simpa using h

/-- Witness for the amended C3 on a concrete run. -/
theorem early_stopping_window_content_witness :
    (2 ≤ 3) ∧
    ([some (2 : ℚ), some 3] ∈ (runEpochs true 3 1 []
      [(some 2, some 4), (some 2, some 3), (some 2, some 2)]).decisions) ∧
    ∃ k, 3 - 1 ≤ k ∧ k ≤ 3 ∧
      ([some (2 : ℚ), some 3] : List NVal) =
        ((([((some 2 : NVal), (some 4 : NVal)), (some 2, some 3),
          (some 2, some 2)]).map Prod.snd).take k).reverse.take (3 - 1) := by
  have e0 : epochStep true 3 1 [] (some 2) (some 4) = .next [some 4] none := by
    simp [epochStep]
  have e1 : epochStep true 3 1 [some 4] (some 2) (some 3) =
      .next [some 3, some 4] none := by
    simp [epochStep]
  have e2 : epochStep true 3 1 [some 3, some 4] (some 2) (some 2) =
      .next [some 2, some 3] (some [some 2, some 3]) := by
    simp [epochStep, npDiff, nvSub, npMax, nvMax, nvLtBool]
    norm_num
  have hmem : [some (2 : ℚ), some 3] ∈ (runEpochs true 3 1 []
      [(some 2, some 4), (some 2, some 3), (some 2, some 2)]).decisions := by
    simp [runEpochs, e0, e1, e2]
  exact ⟨by norm_num, hmem,
    early_stopping_window_content 3 1
      [(some 2, some 4), (some 2, some 3), (some 2, some 2)] (by norm_num)
      [some 2, some 3] hmem⟩

/-- Counterexample to C3 as stated: with `early_stop_hist_len = 3`, the run
below evaluates one early-stopping decision, and the history at that decision
holds 2 losses, not `early_stop_hist_len = 3` — the steady-state window of the
code has length `early_stop_hist_len - 1`. -/
theorem early_stopping_window_length_counterexample :
    (runEpochs true 3 1 []
      [(some 2, some 4), (some 2, some 3), (some 2, some 2)]).decisions =
      [[some 2, some 3]] ∧
    ([some (2 : ℚ), some 3] : List NVal).length ≠ 3 := by
  constructor
  · have e0 : epochStep true 3 1 [] (some 2) (some 4) = .next [some 4] none := by
      simp [epochStep]
    have e1 : epochStep true 3 1 [some 4] (some 2) (some 3) =
        .next [some 3, some 4] none := by
      simp [epochStep]
    have e2 : epochStep true 3 1 [some 3, some 4] (some 2) (some 2) =
        .next [some 2, some 3] (some [some 2, some 3]) := by
      simp [epochStep, npDiff, nvSub, npMax, nvMax, nvLtBool]
      norm_num
    simp [runEpochs, e0, e1, e2]
  · simp

/-- Claim C1: for every model and every input (true profiles, predicted
logits, predicted log counts, epoch number, input gradients, status), when
`att_prior_loss_weight` is zero `model_loss` returns early: the total loss
equals the correctness loss, the attribution-prior component is exactly `0`,
and the result is independent of the model's `fourier_att_prior_loss` method,
which is never invoked. -/
theorem model_loss_zero_weight {P C G S : Type} (m : ProfileModel P C G S)
    (tp pp : P) (pc : C) (n : ℕ) (clw : ℝ) (ty : Option String)
    (sp : Option ℝ) (sg fl : ℕ) (fs : Option ℝ) (alo : Bool)
    (ig : Option G) (st : Option S) :
    model_loss m tp pp pc n clw 0 ty sp sg fl fs alo ig st =
      some ((m.correctness_loss tp pp pc clw).1,
        ((m.correctness_loss tp pp pc clw).1, 0),
        ((m.correctness_loss tp pp pc clw).2.1,
          (m.correctness_loss tp pp pc clw).2.2)) ∧
    ∀ f, model_loss { m with fourier_att_prior_loss := f }
        tp pp pc n clw 0 ty sp sg fl fs alo ig st =
      model_loss m tp pp pc n clw 0 ty sp sg fl fs alo ig st := by
  constructor
  · simp [model_loss]
  · intro f
    simp [model_loss]

/-- Claim C4: the annealed attribution-prior weight follows the three
schedules: constant (`base` at every epoch, whatever the configured speed),
logistic inflate (`base * (2 / (1 + exp (-c * n)) - 1)`, equal to `0` at epoch
`0`), and exponential deflate (`base * exp (-c * n)`, equal to `base` at epoch
`0`). -/
theorem annealWeight_schedule (b c : ℝ) (sp : Option ℝ) (n : ℕ) :
    annealWeight b none sp 0 = some b ∧
    annealWeight b (some ("inflate")) (some c) 0 = some 0 ∧
    annealWeight b (some ("deflate")) (some c) 0 = some b ∧
    annealWeight b none sp n = some b ∧
    annealWeight b (some ("inflate")) (some c) n =
      some (b * (2 / (1 + Real.exp (-c * n)) - 1)) ∧
    annealWeight b (some ("deflate")) (some c) n =
      some (b * Real.exp (-c * n)) := by
  refine ⟨rfl, ?_, ?_, rfl, rfl, rfl⟩
  · norm_num [annealWeight, Real.exp_zero]
  · norm_num [annealWeight, Real.exp_zero]

/-- Claim C6: `create_model` handles only `None`, `"matched"` and `"shared"`;
any other `controls` value leaves `predictor_class` unbound, and the
instantiation raises on the unbound name (no explicit error in the selection
itself); for `controls = None` the chain still selects the without-controls
predictor because the `"matched"` branch does not fire. -/
theorem create_model_controls :
    (∀ s : String, s ≠ ("matched") → s ≠ ("shared") →
      create_model (some s) = none) ∧
    create_model none = some PredictorClass.withoutControls := by
  constructor
  · intro s h1 h2
    simp [create_model, select_predictor_class, h1, h2]
  · rfl

/-- Witness for C6 at the concrete unrecognized value `"bogus"`. -/
theorem create_model_controls_witness :
    (("bogus" : String) ≠ ("matched") ∧ ("bogus" : String) ≠ ("shared")) ∧
    create_model (some ("bogus")) = none :=
  ⟨⟨by decide, by decide⟩,
    create_model_controls.1 ("bogus") (by decide) (by decide)⟩

/-- Claim C9: for a strictly negative `att_prior_loss_weight`, the guard of
`run_epoch` (`weight > 0`) skips the input-gradient computation and passes
`status = None`, `input_grads = None` to `model_loss`, while the guard of
`model_loss` (`not weight`, falsy only at `0`) does not take the early return
and invokes `fourier_att_prior_loss` on those `None` arguments — so the call
raises (propagates `none`) whenever the fourier method does on `None` input. -/
theorem negative_weight_guard_mismatch {P C G S : Type}
    (m : ProfileModel P C G S) (tp pp : P) (pc : C) (n : ℕ) (clw : ℝ)
    (ty : Option String) (sp : Option ℝ) (sg fl : ℕ) (fs : Option ℝ)
    (alo : Bool) (w : ℝ) (computed : S × G) (hw : w < 0)
    (hf : m.fourier_att_prior_loss none none fl fs sg = none) :
    run_epoch_status_grads w computed = ((none : Option S), (none : Option G)) ∧
    model_loss m tp pp pc n clw w ty sp sg fl fs alo none none = none := by
  constructor
  · simp [run_epoch_status_grads, not_lt.mpr hw.le]
  · simp [model_loss, hw.ne, hf]

/-- Witness for C9 at weight `-1`, with a model whose fourier method raises on
`None` arguments. -/
theorem negative_weight_guard_mismatch_witness :
    ((-1 : ℝ) < 0) ∧
    ((⟨fun _ _ _ _ => ((0 : ℝ), 0, 0), fun _ _ _ _ _ => none⟩ :
        ProfileModel Unit Unit Unit Unit).fourier_att_prior_loss
      none none 0 none 0 = none) ∧
    (run_epoch_status_grads (-1 : ℝ) (((), ()) : Unit × Unit) =
        ((none : Option Unit), (none : Option Unit)) ∧
      model_loss
        (⟨fun _ _ _ _ => ((0 : ℝ), 0, 0), fun _ _ _ _ _ => none⟩ :
          ProfileModel Unit Unit Unit Unit)
        () () () 0 0 (-1) none none 0 0 none false none none = none) :=
  ⟨by norm_num, rfl,
    negative_weight_guard_mismatch
      (⟨fun _ _ _ _ => ((0 : ℝ), 0, 0), fun _ _ _ _ _ => none⟩ :
        ProfileModel Unit Unit Unit Unit)
      () () () 0 0 none none 0 0 none false (-1) ((), ())
      (by norm_num) rfl⟩

/-! ## Helper lemmas for the return-data collection -/

theorem sliceAssign_eq_some {P : Type} (arr : List P) (start n : ℕ)
    (vals : List P) (h1 : vals.length = n) (h2 : start + n ≤ arr.length) :
    sliceAssign arr start n vals = some (writeSlice arr start n vals) := by
  simp [sliceAssign, h1, h2]

theorem writeSlice_length {P : Type} (arr : List P) (start n : ℕ)
    (vals : List P) (h1 : vals.length = n) (h2 : start + n ≤ arr.length) :
    (writeSlice arr start n vals).length = arr.length := by
  simp [writeSlice, h1]
  omega

/-- One `fillBatch` step preserves the capacity of every accumulation array and
advances the sample counter by the batch size. -/
theorem fillBatch_cap {P C S X : Type} (wt : Bool) (cap : ℕ)
    (c : Collected P C S X) (b : Batch P C S X)
    (hcap : collectedCap c cap) (hcons : batchConsistent b)
    (hr : c.numSamplesSeen + b.trueCounts.length ≤ cap) :
    ∃ c1, fillBatch wt c b = some c1 ∧ collectedCap c1 cap ∧
      c1.numSamplesSeen = c.numSamplesSeen + b.trueCounts.length := by
  obtain ⟨hc1, hc2, hc3, hc4, hc5, hc6, hc7⟩ := hcap
  obtain ⟨hb1, hb2, hb3, hb4, hb5, hb6⟩ := hcons
  have e1 := sliceAssign_eq_some c.allLogPredProfs c.numSamplesSeen
    b.trueCounts.length b.logPredProfs hb1 (by omega)
  have e2 := sliceAssign_eq_some c.allLogPredCounts c.numSamplesSeen
    b.trueCounts.length b.logPredCounts hb2 (by omega)
  have e3 := sliceAssign_eq_some c.allTrueProfs c.numSamplesSeen
    b.trueCounts.length b.trueProfs hb3 (by omega)
  have e4 := sliceAssign_eq_some c.allTrueCounts c.numSamplesSeen
    b.trueCounts.length b.trueCounts rfl (by omega)
  have e5 := sliceAssign_eq_some c.allInputSeqs c.numSamplesSeen
    b.trueCounts.length b.inputSeqs hb4 (by omega)
  have e6 := sliceAssign_eq_some c.allInputGrads c.numSamplesSeen
    b.trueCounts.length b.inputGrads hb5 (by omega)
  have e7 := sliceAssign_eq_some c.allCoords c.numSamplesSeen
    b.trueCounts.length b.coords hb6 (by omega)
  have l1 : (writeSlice c.allLogPredProfs c.numSamplesSeen b.trueCounts.length
      b.logPredProfs).length = cap := by
    rw [writeSlice_length _ _ _ _ hb1 (by omega), hc1]
  have l2 : (writeSlice c.allLogPredCounts c.numSamplesSeen b.trueCounts.length
      b.logPredCounts).length = cap := by
    rw [writeSlice_length _ _ _ _ hb2 (by omega), hc2]
  have l3 : (writeSlice c.allTrueProfs c.numSamplesSeen b.trueCounts.length
      b.trueProfs).length = cap := by
    rw [writeSlice_length _ _ _ _ hb3 (by omega), hc3]
  have l4 : (writeSlice c.allTrueCounts c.numSamplesSeen b.trueCounts.length
      b.trueCounts).length = cap := by
    rw [writeSlice_length _ _ _ _ rfl (by omega), hc4]
  have l5 : (writeSlice c.allInputSeqs c.numSamplesSeen b.trueCounts.length
      b.inputSeqs).length = cap := by
    rw [writeSlice_length _ _ _ _ hb4 (by omega), hc5]
  have l6 : (writeSlice c.allInputGrads c.numSamplesSeen b.trueCounts.length
      b.inputGrads).length = cap := by
    rw [writeSlice_length _ _ _ _ hb5 (by omega), hc6]
  have l7 : (writeSlice c.allCoords c.numSamplesSeen b.trueCounts.length
      b.coords).length = cap := by
    rw [writeSlice_length _ _ _ _ hb6 (by omega), hc7]
  cases wt with
  | false =>
    refine ⟨⟨writeSlice c.allLogPredProfs c.numSamplesSeen b.trueCounts.length
        b.logPredProfs,
      writeSlice c.allLogPredCounts c.numSamplesSeen b.trueCounts.length
        b.logPredCounts,
      writeSlice c.allTrueProfs c.numSamplesSeen b.trueCounts.length
        b.trueProfs,
      writeSlice c.allTrueCounts c.numSamplesSeen b.trueCounts.length
        b.trueCounts,
      writeSlice c.allInputSeqs c.numSamplesSeen b.trueCounts.length
        b.inputSeqs,
      c.allInputGrads,
      writeSlice c.allCoords c.numSamplesSeen b.trueCounts.length b.coords,
      c.numSamplesSeen + b.trueCounts.length⟩, ?_,
      ⟨l1, l2, l3, l4, l5, hc6, l7⟩, rfl⟩
    simp [fillBatch, e1, e2, e3, e4, e5, e7]
  | true =>
    refine ⟨⟨writeSlice c.allLogPredProfs c.numSamplesSeen b.trueCounts.length
        b.logPredProfs,
      writeSlice c.allLogPredCounts c.numSamplesSeen b.trueCounts.length
        b.logPredCounts,
      writeSlice c.allTrueProfs c.numSamplesSeen b.trueCounts.length
        b.trueProfs,
      writeSlice c.allTrueCounts c.numSamplesSeen b.trueCounts.length
        b.trueCounts,
      writeSlice c.allInputSeqs c.numSamplesSeen b.trueCounts.length
        b.inputSeqs,
      writeSlice c.allInputGrads c.numSamplesSeen b.trueCounts.length
        b.inputGrads,
      writeSlice c.allCoords c.numSamplesSeen b.trueCounts.length b.coords,
      c.numSamplesSeen + b.trueCounts.length⟩, ?_,
      ⟨l1, l2, l3, l4, l5, l6, l7⟩, rfl⟩
    simp [fillBatch, e1, e2, e3, e4, e5, e6, e7]

/-- Folding `fillBatch` over consistent batches that fit within the capacity
succeeds, keeps every array at capacity, and counts every example seen. -/
theorem runCollect_spec {P C S X : Type} (wt : Bool) (cap : ℕ) :
    ∀ (batches : List (Batch P C S X)) (c : Collected P C S X),
      collectedCap c cap →
      (∀ b2 ∈ batches, batchConsistent b2) →
      c.numSamplesSeen + (batches.map fun b2 => b2.trueCounts.length).sum ≤ cap →
      ∃ c2, runCollect wt c batches = some c2 ∧ collectedCap c2 cap ∧
        c2.numSamplesSeen = c.numSamplesSeen +
          (batches.map fun b2 => b2.trueCounts.length).sum := by
  intro batches
  induction batches with
  | nil =>
    intro c hcap hcons hle
    exact ⟨c, rfl, hcap, by simp⟩
  | cons b bs ih =>
    intro c hcap hcons hle
    have hsum : c.numSamplesSeen + b.trueCounts.length +
        (bs.map fun b2 => b2.trueCounts.length).sum ≤ cap := by
      simp only [List.map_cons, List.sum_cons] at hle
      omega
    obtain ⟨c1, hfb, hcap1, hseen1⟩ := fillBatch_cap wt cap c b hcap
      (hcons b (List.mem_cons_self _ _)) (by omega)
    obtain ⟨c2, hrun, hcap2, hseen2⟩ := ih c1 hcap1
      (fun b2 hb2 => hcons b2 (List.mem_cons_of_mem _ hb2)) (by omega)
    refine ⟨c2, ?_, hcap2, ?_⟩
    · simp [runCollect, hfb, hrun]
    · simp only [List.map_cons, List.sum_cons]
      omega

/-- Claim C7: for every `run_epoch` data-collection run whose total example
count fits in the preallocated capacity (`num_batches * batch_size`, doubled
for `revcomp`), every returned array — predicted/true profiles and counts,
input sequences, input gradients, coordinates — has first dimension exactly
the total number of examples seen across the batches, not the capacity. -/
theorem run_epoch_return_data_truncation {P C S X : Type} (wt : Bool)
    (nb bs : ℕ) (rc : Bool) (init : Collected P C S X)
    (batches : List (Batch P C S X))
    (hcap : collectedCap init (expectedSamples nb bs rc))
    (hseen : init.numSamplesSeen = 0)
    (hcons : ∀ b ∈ batches, batchConsistent b)
    (hle : (batches.map fun b => b.trueCounts.length).sum ≤
      expectedSamples nb bs rc) :
    ∃ cf, runEpochReturnData wt init batches = some cf ∧
      collectedCap cf ((batches.map fun b => b.trueCounts.length).sum) ∧
      cf.numSamplesSeen = (batches.map fun b => b.trueCounts.length).sum := by
  obtain ⟨c2, hrun, hcap2, hseen2⟩ := runCollect_spec wt
    (expectedSamples nb bs rc) batches init hcap hcons (by omega)
  obtain ⟨k1, k2, k3, k4, k5, k6, k7⟩ := hcap2
  have hs : c2.numSamplesSeen = (batches.map fun b => b.trueCounts.length).sum := by
    omega
  refine ⟨truncateCollected c2, ?_, ?_, ?_⟩
  · simp [runEpochReturnData, hrun]
  · refine ⟨?_, ?_, ?_, ?_, ?_, ?_, ?_⟩ <;>
      simp [truncateCollected, k1, k2, k3, k4, k5, k6, k7, hs] <;> omega
  · simp [truncateCollected, hs]

/-- Witness for C7: two preallocated batches of size two (capacity 4), one
actual batch with a single example; every truncated array has length 1. -/
theorem run_epoch_return_data_truncation_witness :
    ((([⟨[1], [1], [1], [1], [1], [1], [1]⟩] : List (Batch ℕ ℕ ℕ ℕ)).map
        fun b => b.trueCounts.length).sum ≤ expectedSamples 2 2 false) ∧
    ∃ cf, runEpochReturnData false
        (⟨[0, 0, 0, 0], [0, 0, 0, 0], [0, 0, 0, 0], [0, 0, 0, 0],
          [0, 0, 0, 0], [0, 0, 0, 0], [0, 0, 0, 0], 0⟩ : Collected ℕ ℕ ℕ ℕ)
        [⟨[1], [1], [1], [1], [1], [1], [1]⟩] = some cf ∧
      collectedCap cf 1 ∧ cf.numSamplesSeen = 1 :=
  ⟨by decide,
    run_epoch_return_data_truncation false 2 2 false
      (⟨[0, 0, 0, 0], [0, 0, 0, 0], [0, 0, 0, 0], [0, 0, 0, 0],
        [0, 0, 0, 0], [0, 0, 0, 0], [0, 0, 0, 0], 0⟩ : Collected ℕ ℕ ℕ ℕ)
      [⟨[1], [1], [1], [1], [1], [1], [1]⟩]
      (by decide) rfl (by decide) (by decide)⟩

/-! ## Helper lemmas for the Fourier attribution-prior model -/

theorem sum_map_mul (k : ℝ) (l : List ℝ) :
    (l.map fun x => k * x).sum = k * l.sum := by
  simpa using List.sum_map_mul_left l id k

theorem getD_map_mul (k : ℝ) (l : List ℝ) (n : ℕ) :
    (l.map fun x => k * x).getD n 0 = k * l.getD n 0 := by
  induction l generalizing n with
  | nil => simp
  | cons a tl ih =>
    cases n with
    | zero => simp
    | succ m => simpa using ih m

theorem smoothNbr_scale (k : ℝ) (l : List ℝ) (sigma i j : ℕ) :
    smoothNbr (l.map fun x => k * x) sigma i j = k * smoothNbr l sigma i j := by
  unfold smoothNbr
  split
  · exact getD_map_mul k l (i + j - sigma)
  · simp

theorem smoothSaliency_scale (sigma : ℕ) (k : ℝ) (l : List ℝ) :
    smoothSaliency sigma (l.map fun x => k * x) =
      (smoothSaliency sigma l).map fun x => k * x := by
  unfold smoothSaliency
  rw [List.length_map, List.map_map]
  refine List.map_congr_left fun i _ => ?_
  rw [List.map_congr_left fun j _ => smoothNbr_scale k l sigma i j,
    List.sum_map_mul_left (List.range (2 * sigma + 1))
      (fun j => smoothNbr l sigma i j) k]
  simp [Function.comp, mul_div_assoc]

theorem energyOf_scale (k : ℝ) (l : List ℝ) :
    energyOf (l.map fun x => k * x) = k * k * energyOf l := by
  unfold energyOf
  rw [List.map_map,
    show ((fun x => x * x) ∘ fun x => k * x) = fun x => k * k * (x * x) from
      funext fun x => by simp only [Function.comp_apply]; ring]
  exact List.sum_map_mul_left l (fun x => x * x) (k * k)

theorem normalizeSaliency_scale (k : ℝ) (hk : 0 < k) (l : List ℝ) :
    normalizeSaliency (l.map fun x => k * x) = normalizeSaliency l := by
  unfold normalizeSaliency
  rw [energyOf_scale, List.map_map]
  have hs : Real.sqrt (k * k * energyOf l) = k * Real.sqrt (energyOf l) := by
    rw [Real.sqrt_mul (by positivity), Real.sqrt_mul_self hk.le]
  rw [hs]
  refine List.map_congr_left fun x _ => ?_
  simp only [Function.comp]
  exact mul_div_mul_left x (Real.sqrt (energyOf l)) (ne_of_gt hk)

theorem saliencyOf_scale (k : ℝ) (e : List (List ℝ)) :
    saliencyOf (e.map fun pos => pos.map fun x => k * x) =
      (saliencyOf e).map fun x => k * x := by
  unfold saliencyOf
  rw [List.map_map, List.map_map]
  refine List.map_congr_left fun pos _ => ?_
  simp only [Function.comp]
  exact sum_map_mul k pos

theorem exPenalty_scale (sigma fl : ℕ) (so : Option ℝ) (k : ℝ) (hk : 0 < k)
    (e : List (List ℝ)) :
    exPenalty sigma fl so (e.map fun pos => pos.map fun x => k * x) =
      exPenalty sigma fl so e := by
  unfold exPenalty
  rw [saliencyOf_scale, smoothSaliency_scale, normalizeSaliency_scale k hk]

theorem posPenalties_scale (sigma fl : ℕ) (so : Option ℝ) (k : ℝ) (hk : 0 < k) :
    ∀ (sts : List Bool) (gs : List (List (List ℝ))),
      posPenalties sigma fl so sts
        (gs.map fun e => e.map fun pos => pos.map fun x => k * x) =
      posPenalties sigma fl so sts gs := by
  intro sts
  induction sts with
  | nil =>
    intro gs
    cases gs <;> rfl
  | cons st sts2 ih =>
    intro gs
    cases gs with
    | nil => rfl
    | cons g gs2 =>
      simp only [List.map_cons, posPenalties]
      rw [exPenalty_scale sigma fl so k hk, ih]

/-- Claim C8: scaling every input-gradient value by a positive constant leaves
the (spec-modelled) Fourier attribution-prior loss unchanged, for every batch,
status vector, frequency limit, softness and smoothing sigma — the per-example
unit-energy normalization of the smoothed saliency cancels the scale before
the frequency energy is taken. -/
theorem fourier_scale_invariance (statuses : List Bool)
    (grads : List (List (List ℝ))) (fl : ℕ) (so : Option ℝ) (sigma : ℕ)
    (k : ℝ) (hk : 0 < k) :
    fourier_att_prior_loss statuses
        (grads.map fun e => e.map fun pos => pos.map fun x => k * x)
        fl so sigma =
      fourier_att_prior_loss statuses grads fl so sigma := by
  unfold fourier_att_prior_loss
  rw [posPenalties_scale sigma fl so k hk statuses grads]

/-- Witness for C8: scaling the single positive example's gradients by `2`. -/
theorem fourier_scale_invariance_witness :
    (0 : ℝ) < 2 ∧
    fourier_att_prior_loss [true]
        (([[[1]]] : List (List (List ℝ))).map fun e =>
          e.map fun pos => pos.map fun x => (2 : ℝ) * x) 1 none 1 =
      fourier_att_prior_loss [true] [[[1]]] 1 none 1 :=
  ⟨by norm_num,
    fourier_scale_invariance [true] [[[1]]] 1 none 1 2 (by norm_num)⟩

end TrainProfileModel
